import Mathlib

/-
Verification development for the koduino serial subsystem.

The repository ships two headers under src/: stm32/cores/arduino/USARTClass.h
(the UART mode byte table and the USARTClass declaration, including its
ring buffers and the static USART_InitTypeDef member) and
stm32/libraries/SPI/SPI.h (the SPI mode symbols).  The method bodies
(RingBuffer, the USARTClass members, the interrupt dispatch) are not part of
src/, so they are modelled here from the specification, as flagged on each
definition.  The mode-byte and SPI-mode constants are taken verbatim from the
headers.
-/

/-- Constant from src/stm32/cores/arduino/USARTClass.h line 12. -/
def SERIAL_8N1 : Nat := 0x06

/-- Constant from src/stm32/cores/arduino/USARTClass.h line 16. -/
def SERIAL_8N2 : Nat := 0x0E

/-- Constant from src/stm32/cores/arduino/USARTClass.h line 19. -/
def SERIAL_7E1 : Nat := 0x24

/-- Constant from src/stm32/cores/arduino/USARTClass.h line 20. -/
def SERIAL_8E1 : Nat := 0x26

/-- Constant from src/stm32/cores/arduino/USARTClass.h line 23. -/
def SERIAL_7E2 : Nat := 0x2C

/-- Constant from src/stm32/cores/arduino/USARTClass.h line 24. -/
def SERIAL_8E2 : Nat := 0x2E

/-- Constant from src/stm32/cores/arduino/USARTClass.h line 27. -/
def SERIAL_7O1 : Nat := 0x34

/-- Constant from src/stm32/cores/arduino/USARTClass.h line 28. -/
def SERIAL_8O1 : Nat := 0x36

/-- Constant from src/stm32/cores/arduino/USARTClass.h line 31. -/
def SERIAL_7O2 : Nat := 0x3C

/-- Constant from src/stm32/cores/arduino/USARTClass.h line 32. -/
def SERIAL_8O2 : Nat := 0x3E

/-- Constant from src/stm32/libraries/SPI/SPI.h line 8. -/
def SPI_MODE0 : Nat := 0x02

/-- Constant from src/stm32/libraries/SPI/SPI.h line 9. -/
def SPI_MODE1 : Nat := 0x00

/-- Constant from src/stm32/libraries/SPI/SPI.h line 10. -/
def SPI_MODE2 : Nat := 0x03

/-- Constant from src/stm32/libraries/SPI/SPI.h line 11. -/
def SPI_MODE3 : Nat := 0x01

/-- The SPI mode symbol that the header assigns to raw data-mode number n,
per the SPI_MODE0 .. SPI_MODE3 defines of src/stm32/libraries/SPI/SPI.h. -/
def spiModeSymbol : Nat → Nat
  | 0 => SPI_MODE0
  | 1 => SPI_MODE1
  | 2 => SPI_MODE2
  | _ => SPI_MODE3

/-- Modelled from the spec: word length decoded from the mode byte passed to
begin(baud, mode).  The decoding code lives in the USARTClass begin body,
which is not under src/; the bit layout follows the full table of mode
defines in USARTClass.h (bits 1..2 hold word length minus five). -/
def modeWordLength (m : Nat) : Nat := 5 + ((m >>> 1) % 4)

/-- Modelled from the spec: parity code decoded from the mode byte (bits
4..5 of the define table in USARTClass.h: 0 = none, 2 = even, 3 = odd).
The decoding code in the begin body is not under src/. -/
def modeParity (m : Nat) : Nat := (m >>> 4) % 4

/-- Modelled from the spec: stop-bit count decoded from the mode byte (bit 3
of the define table in USARTClass.h: 0 = one stop bit, 1 = two).  The
decoding code in the begin body is not under src/. -/
def modeStopBits (m : Nat) : Nat := 1 + ((m >>> 3) % 2)

/-- Modelled from the spec: the fixed ring-buffer capacity N (a power of two,
e.g. 64, per section 3 of the spec).  The RingBuffer type used by
USARTClass.h is not under src/. -/
def SERIAL_BUFFER_SIZE : Nat := 64

/-- Modelled from the spec: the Circular Byte Buffer of section 4.1.  The
RingBuffer type is referenced by USARTClass.h (fields _rxBuf, _txBuf) but its
definition is not under src/.  A fixed storage array of cap bytes is modelled
as a total function from index to stored byte; head is the write index and
tail is the read index, both kept below cap. -/
structure RingBuffer where
  cap : Nat
  data : Nat → Nat
  head : Nat
  tail : Nat

/-- Modelled from the spec: a freshly constructed buffer of capacity n, both
indices zero, storage cleared. -/
def RingBuffer.mk0 (n : Nat) : RingBuffer := ⟨n, fun _ => 0, 0, 0⟩

/-- Modelled from the spec: the buffer is empty iff write index equals read
index (section 3 invariant). -/
def RingBuffer.isEmpty (b : RingBuffer) : Bool := b.head == b.tail

/-- Modelled from the spec: the buffer is full iff advancing the write index
by one would equal the read index (section 3 invariant). -/
def RingBuffer.isFull (b : RingBuffer) : Bool := (b.head + 1) % b.cap == b.tail

/-- Modelled from the spec: store(byte) appends one byte at the write index
and advances it mod cap; if full the byte is dropped silently and the buffer
is unchanged (section 4.1).  No error is reported to the caller: the return
type carries only the buffer. -/
def RingBuffer.store (b : RingBuffer) (c : Nat) : RingBuffer :=
  if (b.head + 1) % b.cap == b.tail then b
  else { b with data := fun j => if j = b.head then c else b.data j,
                head := (b.head + 1) % b.cap }

/-- Modelled from the spec: read() removes and returns the oldest byte, or
signals empty when the write index equals the read index (section 4.1). -/
def RingBuffer.read (b : RingBuffer) : Option Nat × RingBuffer :=
  if b.head == b.tail then (none, b)
  else (some (b.data b.tail), { b with tail := (b.tail + 1) % b.cap })

/-- Modelled from the spec: peek() returns the oldest byte without removing
it, or signals empty (section 4.1). -/
def RingBuffer.peek (b : RingBuffer) : Option Nat :=
  if b.head == b.tail then none else some (b.data b.tail)

/-- Modelled from the spec: available() is the number of queued bytes,
computed from the index difference modulo cap (section 4.1). -/
def RingBuffer.available (b : RingBuffer) : Nat := (b.cap + b.head - b.tail) % b.cap

/-- Abstraction function: the queued bytes in FIFO order, oldest first. -/
def RingBuffer.toList (b : RingBuffer) : List Nat :=
  (List.range b.available).map fun i => b.data ((b.tail + i) % b.cap)

/-- Well-formedness of a buffer state: positive capacity and in-range
indices, as maintained by every operation. -/
def RingBuffer.Inv (b : RingBuffer) : Prop := 0 < b.cap ∧ b.head < b.cap ∧ b.tail < b.cap

/-- Iterated store, in list order. -/
def RingBuffer.storeList (b : RingBuffer) (l : List Nat) : RingBuffer :=
  l.foldl RingBuffer.store b

/-- Fuel-bounded repeated read, collecting the returned bytes. -/
def RingBuffer.drainAux : Nat → RingBuffer → List Nat
  | 0, _ => []
  | n + 1, b =>
    match b.read with
    | (none, _) => []
    | (some c, b2) => c :: RingBuffer.drainAux n b2

/-- The sequence of bytes produced by reading until empty. -/
def RingBuffer.drain (b : RingBuffer) : List Nat := RingBuffer.drainAux b.available b

/-- A buffer operation, for quantifying over operation sequences. -/
inductive BufOp where
  | store (c : Nat)
  | read
  | peek

/-- State effect of one buffer operation (peek does not mutate). -/
def RingBuffer.applyOp (b : RingBuffer) : BufOp → RingBuffer
  | .store c => b.store c
  | .read => (b.read).2
  | .peek => b

/-- State effect of a sequence of buffer operations. -/
def RingBuffer.applyOps (b : RingBuffer) (ops : List BufOp) : RingBuffer :=
  ops.foldl RingBuffer.applyOp b

/-- Mirror of USART_InitTypeDef as used by USARTClass.h line 47: the frame
configuration computed inside begin().  The field set follows the frame
parameters named by the spec (section 4.2). -/
structure USART_InitTypeDef where
  baudRate : Nat
  wordLength : Nat
  parity : Nat
  stopBits : Nat
deriving DecidableEq

/-- Modelled from the spec: the state of one UART Controller (the C++ class
USARTClass of USARTClass.h, whose member bodies are not under src/).
cbLog records the bytes handed to the attached callback; txLog records the
bytes written to the peripheral transmit register, in order. -/
structure USART where
  rxBuf : RingBuffer
  txBuf : RingBuffer
  isBootPort : Bool
  configured : Bool
  baud : Nat
  mode : Nat
  rxIE : Bool
  txIE : Bool
  beginMillis : Nat
  callback : Bool
  cbLog : List Nat
  txLog : List Nat

/-- A controller as constructed, bound to a descriptor; boot says whether it
is the bootloader-sharing instance (Serial1). -/
def USART.mk0 (boot : Bool) : USART :=
  ⟨RingBuffer.mk0 SERIAL_BUFFER_SIZE, RingBuffer.mk0 SERIAL_BUFFER_SIZE,
   boot, false, 0, 0, false, false, 0, false, [], []⟩

/-- Modelled from the spec: begin(baud, mode) stores the configuration,
clears both buffers, enables the receive-interrupt line but not the
transmit-interrupt line, arms the boot-guard reference time, and activates
the controller (section 4.2).  The begin body is not under src/. -/
def USART.begin (u : USART) (baud mode now : Nat) : USART :=
  { u with baud := baud, mode := mode,
           rxBuf := RingBuffer.mk0 SERIAL_BUFFER_SIZE,
           txBuf := RingBuffer.mk0 SERIAL_BUFFER_SIZE,
           rxIE := true, txIE := false, configured := true,
           beginMillis := now }

/-- Modelled from the spec: end() disables both interrupt lines and returns
to Idle (section 4.2).  The end body is not under src/. -/
def USART.endSerial (u : USART) : USART :=
  { u with rxIE := false, txIE := false, configured := false }

/-- Modelled from the spec: available() returns the RX buffer count
(section 4.2).  The body is not under src/. -/
def USART.available (u : USART) : Int := Int.ofNat u.rxBuf.available

/-- Modelled from the spec: peek() returns the RX buffer peek, or the
sentinel -1 if empty (section 4.2).  The body is not under src/. -/
def USART.peek (u : USART) : Int :=
  match u.rxBuf.peek with
  | none => -1
  | some c => Int.ofNat c

/-- Modelled from the spec: read() returns and removes the oldest RX byte,
or the sentinel -1 if empty (section 4.2).  The body is not under src/. -/
def USART.read (u : USART) : Int × USART :=
  match u.rxBuf.read with
  | (none, _) => (-1, u)
  | (some c, b2) => (Int.ofNat c, { u with rxBuf := b2 })

/-- Modelled from the spec: write(byte) at monotonic time now.  During the
boot-guard window on the bootloader-sharing port the byte is discarded and 0
returned; otherwise the transmit-interrupt line is enabled and the byte is
enqueued, returning 1, or 0 when the TX buffer is full (section 4.2).  The
body is not under src/. -/
def USART.write (u : USART) (c now : Nat) : Nat × USART :=
  if u.isBootPort = true ∧ now < u.beginMillis + 1000 then (0, u)
  else if u.txBuf.isFull = true then (0, { u with txIE := true })
  else (1, { u with txIE := true, txBuf := u.txBuf.store c })

/-- Modelled from the spec: attachInterrupt installs the byte-received
callback, switching RX to callback mode (section 4.2). -/
def USART.attachInterrupt (u : USART) : USART := { u with callback := true }

/-- Modelled from the spec: detachInterrupt removes the callback, reverting
RX to buffered mode; idempotent (section 4.2). -/
def USART.detachInterrupt (u : USART) : USART := { u with callback := false }

/-- Modelled from the spec: the RX-data-ready half of the Interrupt Dispatch
(section 4.3, wirishUSARTInterruptHandler is declared in USARTClass.h but
its body is not under src/): with a callback attached the byte goes to the
callback and not to the RX buffer; otherwise it is stored in the RX
buffer. -/
def USART.rxIsr (u : USART) (c : Nat) : USART :=
  if u.callback = true then { u with cbLog := u.cbLog ++ [c] }
  else { u with rxBuf := u.rxBuf.store c }

/-- Modelled from the spec: the TX-register-empty half of the Interrupt
Dispatch (section 4.3): if the TX buffer is non-empty, read the next byte
and write it to the transmit register (txLog); if the TX buffer is then
empty, disable the transmit-interrupt line, leaving RX enabled.  The
dispatch only runs while the transmit interrupt is enabled. -/
def USART.txIsr (u : USART) : USART :=
  if u.txIE = true then
    let u1 :=
      match u.txBuf.read with
      | (some c, b2) => { u with txBuf := b2, txLog := u.txLog ++ [c] }
      | (none, _) => u
    if u1.txBuf.isEmpty = true then { u1 with txIE := false } else u1
  else u

/-- A sequence of RX interrupts delivering the listed bytes in order. -/
def USART.rxIsrList (u : USART) (l : List Nat) : USART :=
  l.foldl USART.rxIsr u

/-- A sequence of write calls at a fixed monotonic time, keeping states. -/
def USART.writeList (u : USART) (l : List Nat) (now : Nat) : USART :=
  l.foldl (fun v c => (v.write c now).2) u

/-- n read() calls in sequence, collecting the returned values. -/
def USART.readN : Nat → USART → List Int
  | 0, _ => []
  | n + 1, u => (u.read).1 :: USART.readN n (u.read).2

/-- n TX-register-empty interrupts in sequence. -/
def USART.pump : Nat → USART → USART
  | 0, u => u
  | n + 1, u => USART.pump n u.txIsr

/-- External events driving one controller: application calls and the two
interrupt causes handled by the Interrupt Dispatch. -/
inductive UEvent where
  | write (c now : Nat)
  | txEmpty
  | rxReady (c : Nat)
  | readCall
  | attach
  | detach

/-- The step function of the write and interrupt-dispatch state machine. -/
def USART.step (u : USART) : UEvent → USART
  | .write c now => (u.write c now).2
  | .txEmpty => u.txIsr
  | .rxReady c => u.rxIsr c
  | .readCall => (u.read).2
  | .attach => u.attachInterrupt
  | .detach => u.detachInterrupt

/-- Running a list of events from a state. -/
def USART.run (u : USART) (es : List UEvent) : USART := es.foldl USART.step u

/-- Reachability in the step relation. -/
def USART.Reachable (u0 u : USART) : Prop := ∃ es, USART.run u0 es = u

/-- The three UART instances of the board (Serial1, Serial2, Serial3 in
USARTClass.h). -/
inductive Inst where
  | s1
  | s2
  | s3
deriving DecidableEq

/-- The system of the three controllers together with the configuration-init
structure, which USARTClass.h line 47 declares as a static class member:
one structure shared by all instances, not one per instance. -/
structure SerialSystem where
  serial1 : USART
  serial2 : USART
  serial3 : USART
  initStructure : USART_InitTypeDef

/-- Instance lookup. -/
def SerialSystem.get (s : SerialSystem) : Inst → USART
  | .s1 => s.serial1
  | .s2 => s.serial2
  | .s3 => s.serial3

/-- Instance update. -/
def SerialSystem.set (s : SerialSystem) : Inst → USART → SerialSystem
  | .s1, u => { s with serial1 := u }
  | .s2, u => { s with serial2 := u }
  | .s3, u => { s with serial3 := u }

/-- Public operations addressed to one controller instance. -/
inductive SysOp where
  | beginOp (baud mode now : Nat)
  | endOp
  | writeOp (c now : Nat)
  | readOp
  | attachOp
  | detachOp
  | rxIsrOp (c : Nat)
  | txIsrOp

/-- Modelled from the spec: the effect of one public operation on the
system.  beginOp fills the static (class-wide, per USARTClass.h line 47)
init structure with the frame parameters decoded from the mode byte and then
configures the addressed instance; every other operation touches only the
addressed instance. -/
def SerialSystem.applyOp (s : SerialSystem) (i : Inst) : SysOp → SerialSystem
  | .beginOp baud mode now =>
    { s.set i ((s.get i).begin baud mode now) with
      initStructure :=
        ⟨baud, modeWordLength mode, modeParity mode, modeStopBits mode⟩ }
  | .endOp => s.set i (s.get i).endSerial
  | .writeOp c now => s.set i ((s.get i).write c now).2
  | .readOp => s.set i ((s.get i).read).2
  | .attachOp => s.set i (s.get i).attachInterrupt
  | .detachOp => s.set i (s.get i).detachInterrupt
  | .rxIsrOp c => s.set i ((s.get i).rxIsr c)
  | .txIsrOp => s.set i (s.get i).txIsr

/-- A concrete controller whose RX buffer is full (capacity 2, one queued
byte), used to exercise the full-buffer path of the dispatch. -/
def uFull : USART := { USART.mk0 false with rxBuf := ⟨2, fun _ => 0, 1, 0⟩ }

/-- A concrete controller with one byte (value 9) queued in its RX
buffer. -/
def uOne : USART := { USART.mk0 false with rxBuf := (RingBuffer.mk0 4).store 9 }

/-- A concrete system state in which the shared init structure still holds
the frame parameters of a begin(115200, SERIAL_8E2) issued on Serial2. -/
def sysEx : SerialSystem :=
  { serial1 := USART.mk0 true
    serial2 := USART.mk0 false
    serial3 := USART.mk0 false
    initStructure := ⟨115200, 8, 2, 2⟩ }

/-- For x below twice the modulus, reduction is a single subtraction. -/
theorem mod_two_cases (K x : Nat) (_hK : 0 < K) (hx : x < 2 * K) :
    x % K = if x < K then x else x - K := by
  split
  · exact Nat.mod_eq_of_lt (by omega)
  · rw [Nat.mod_eq_sub_mod (by omega)]
    exact Nat.mod_eq_of_lt (by omega)

/-- Closed form of available() on a well-formed buffer. -/
theorem RingBuffer.avail_eq (b : RingBuffer) (h : b.Inv) :
    b.available =
      if b.tail ≤ b.head then b.head - b.tail else b.cap + b.head - b.tail := by
  obtain ⟨hK, hh, ht⟩ := h
  unfold RingBuffer.available
  rw [mod_two_cases b.cap (b.cap + b.head - b.tail) hK (by omega)]
  split <;> split <;> omega

/-- available() never reaches the capacity. -/
theorem RingBuffer.avail_lt (b : RingBuffer) (h : 0 < b.cap) :
    b.available < b.cap :=
  Nat.mod_lt _ h

/-- available() vanishes exactly on index coincidence. -/
theorem RingBuffer.avail_zero_iff (b : RingBuffer) (h : b.Inv) :
    b.available = 0 ↔ b.head = b.tail := by
  rw [b.avail_eq h]
  obtain ⟨_, hh, ht⟩ := h
  split <;> omega

/-- isFull holds exactly when available() is capacity minus one. -/
theorem RingBuffer.isFull_iff (b : RingBuffer) (h : b.Inv) :
    b.isFull = true ↔ b.available = b.cap - 1 := by
  rw [b.avail_eq h]
  obtain ⟨hK, hh, ht⟩ := h
  simp only [RingBuffer.isFull, beq_iff_eq]
  rw [mod_two_cases b.cap (b.head + 1) hK (by omega)]
  split <;> split <;> omega

/-- isEmpty in propositional form. -/
theorem RingBuffer.isEmpty_true_iff (b : RingBuffer) :
    b.isEmpty = true ↔ b.head = b.tail := by
  simp [RingBuffer.isEmpty]

/-- A full buffer drops the stored byte: store is the identity. -/
theorem RingBuffer.store_full (b : RingBuffer) (c : Nat) (h : b.isFull = true) :
    b.store c = b := by
  simp only [RingBuffer.isFull, beq_iff_eq] at h
  simp [RingBuffer.store, h]

/-- Explicit record form of store on a non-full buffer. -/
theorem RingBuffer.store_eq (b : RingBuffer) (c : Nat) (h : b.isFull = false) :
    b.store c = { b with data := fun j => if j = b.head then c else b.data j,
                         head := (b.head + 1) % b.cap } := by
  simp only [RingBuffer.isFull] at h
  simp [RingBuffer.store, h]

/-- store preserves the capacity. -/
theorem RingBuffer.store_cap (b : RingBuffer) (c : Nat) : (b.store c).cap = b.cap := by
  unfold RingBuffer.store
  split <;> rfl

/-- store preserves the read index. -/
theorem RingBuffer.store_tail (b : RingBuffer) (c : Nat) : (b.store c).tail = b.tail := by
  unfold RingBuffer.store
  split <;> rfl

/-- store preserves well-formedness. -/
theorem RingBuffer.store_inv (b : RingBuffer) (c : Nat) (h : b.Inv) : (b.store c).Inv := by
  obtain ⟨hK, hh, ht⟩ := h
  cases hf : b.isFull
  · rw [b.store_eq c hf]
    exact ⟨hK, Nat.mod_lt _ hK, ht⟩
  · rw [b.store_full c hf]
    exact ⟨hK, hh, ht⟩

/-- store on a non-full buffer grows available() by one. -/
theorem RingBuffer.avail_store (b : RingBuffer) (c : Nat) (h : b.Inv)
    (hf : b.isFull = false) : (b.store c).available = b.available + 1 := by
  obtain ⟨hK, hh, ht⟩ := h
  have hne : (b.head + 1) % b.cap ≠ b.tail := by
    simpa [RingBuffer.isFull] using hf
  rw [b.store_eq c hf]
  show (b.cap + (b.head + 1) % b.cap - b.tail) % b.cap
      = (b.cap + b.head - b.tail) % b.cap + 1
  rcases Nat.lt_or_ge (b.head + 1) b.cap with h1 | h1
  · rw [Nat.mod_eq_of_lt h1] at hne ⊢
    rw [mod_two_cases b.cap (b.cap + (b.head + 1) - b.tail) hK (by omega),
        mod_two_cases b.cap (b.cap + b.head - b.tail) hK (by omega)]
    split <;> split <;> omega
  · have e0 : b.head + 1 = b.cap := by omega
    have e1 : (b.head + 1) % b.cap = 0 := by rw [e0, Nat.mod_self]
    rw [e1] at hne ⊢
    rw [mod_two_cases b.cap (b.cap + 0 - b.tail) hK (by omega),
        mod_two_cases b.cap (b.cap + b.head - b.tail) hK (by omega)]
    split <;> split <;> omega

/-- The slot one past the queued region is the write index. -/
theorem RingBuffer.tail_add_avail (b : RingBuffer) (h : b.Inv) :
    (b.tail + b.available) % b.cap = b.head := by
  have ha := b.avail_eq h
  obtain ⟨hK, hh, ht⟩ := h
  rw [ha]
  split
  · rw [show b.tail + (b.head - b.tail) = b.head by omega]
    exact Nat.mod_eq_of_lt hh
  · rw [show b.tail + (b.cap + b.head - b.tail) = b.cap + b.head by omega,
        Nat.add_mod_left]
    exact Nat.mod_eq_of_lt hh

/-- Positions inside the queued region never alias the write index. -/
theorem RingBuffer.idx_ne_head (b : RingBuffer) (h : b.Inv) (i : Nat)
    (hi : i < b.available) : (b.tail + i) % b.cap ≠ b.head := by
  have ha := b.avail_eq h
  obtain ⟨hK, hh, ht⟩ := h
  rcases le_or_lt b.tail b.head with hth | hth
  · have ha2 : b.available = b.head - b.tail := by rw [ha, if_pos hth]
    rw [ha2] at hi
    rw [Nat.mod_eq_of_lt (by omega)]
    omega
  · have ha2 : b.available = b.cap + b.head - b.tail := by
      rw [ha, if_neg (by omega)]
    rw [ha2] at hi
    rw [mod_two_cases b.cap (b.tail + i) hK (by omega)]
    split <;> omega

/-- The abstraction has exactly available() entries. -/
theorem RingBuffer.toList_length (b : RingBuffer) : b.toList.length = b.available := by
  simp [RingBuffer.toList]

/-- The abstraction is empty exactly on index coincidence. -/
theorem RingBuffer.toList_nil_iff (b : RingBuffer) (h : b.Inv) :
    b.toList = [] ↔ b.head = b.tail := by
  rw [← b.avail_zero_iff h, ← b.toList_length]
  exact List.length_eq_zero.symm

/-- store on a non-full buffer appends the byte to the abstraction. -/
theorem RingBuffer.toList_store (b : RingBuffer) (c : Nat) (h : b.Inv)
    (hf : b.isFull = false) : (b.store c).toList = b.toList ++ [c] := by
  unfold RingBuffer.toList
  rw [b.avail_store c h hf, b.store_eq c hf]
  dsimp only
  rw [List.range_succ, List.map_append]
  congr 1
  · apply List.map_congr_left
    intro i hi
    rw [List.mem_range] at hi
    rw [if_neg (b.idx_ne_head h i hi)]
  · simp only [List.map_cons, List.map_nil]
    rw [b.tail_add_avail h, if_pos rfl]

/-- read on an empty buffer reports none and makes no change. -/
theorem RingBuffer.read_empty (b : RingBuffer) (h : b.head = b.tail) :
    b.read = (none, b) := by
  simp [RingBuffer.read, h]

/-- Explicit record form of read on a non-empty buffer. -/
theorem RingBuffer.read_ne (b : RingBuffer) (h : ¬ b.head = b.tail) :
    b.read = (some (b.data b.tail), { b with tail := (b.tail + 1) % b.cap }) := by
  simp [RingBuffer.read, h]

/-- read preserves well-formedness. -/
theorem RingBuffer.read_inv (b : RingBuffer) (h : b.Inv) : ((b.read).2).Inv := by
  obtain ⟨hK, hh, ht⟩ := h
  by_cases he : b.head = b.tail
  · rw [b.read_empty he]
    exact ⟨hK, hh, ht⟩
  · rw [b.read_ne he]
    exact ⟨hK, hh, Nat.mod_lt _ hK⟩

/-- read on a non-empty buffer shrinks available() by one. -/
theorem RingBuffer.avail_read (b : RingBuffer) (h : b.Inv)
    (hne : ¬ b.head = b.tail) : ((b.read).2).available = b.available - 1 := by
  obtain ⟨hK, hh, ht⟩ := h
  rw [b.read_ne hne]
  show (b.cap + b.head - (b.tail + 1) % b.cap) % b.cap
      = (b.cap + b.head - b.tail) % b.cap - 1
  rcases Nat.lt_or_ge (b.tail + 1) b.cap with h1 | h1
  · rw [Nat.mod_eq_of_lt h1]
    rw [mod_two_cases b.cap (b.cap + b.head - (b.tail + 1)) hK (by omega),
        mod_two_cases b.cap (b.cap + b.head - b.tail) hK (by omega)]
    split <;> split <;> omega
  · have e0 : b.tail + 1 = b.cap := by omega
    rw [e0, Nat.mod_self]
    rw [mod_two_cases b.cap (b.cap + b.head - 0) hK (by omega),
        mod_two_cases b.cap (b.cap + b.head - b.tail) hK (by omega)]
    split <;> split <;> omega

/-- On a non-empty buffer the abstraction decomposes as the byte returned by
read followed by the abstraction of the post-read state. -/
theorem RingBuffer.toList_cons (b : RingBuffer) (h : b.Inv)
    (hne : ¬ b.head = b.tail) :
    b.toList = b.data b.tail :: ((b.read).2).toList := by
  have hK := h.1
  have ht := h.2.2
  have hnz : b.available ≠ 0 := fun h0 => hne ((b.avail_zero_iff h).mp h0)
  obtain ⟨m, hm⟩ : ∃ m, b.available = m + 1 := ⟨b.available - 1, by omega⟩
  have hav2 : ((b.read).2).available = m := by
    rw [b.avail_read h hne, hm]
    omega
  rw [b.read_ne hne] at hav2
  rw [b.read_ne hne]
  unfold RingBuffer.toList
  dsimp only
  rw [hm, hav2, List.range_succ_eq_map, List.map_cons, List.map_map]
  congr 1
  · rw [Nat.add_zero, Nat.mod_eq_of_lt ht]
  · apply List.map_congr_left
    intro i _
    show b.data ((b.tail + (i + 1)) % b.cap)
        = b.data (((b.tail + 1) % b.cap + i) % b.cap)
    rw [Nat.mod_add_mod]
    have e : b.tail + (i + 1) = b.tail + 1 + i := by omega
    rw [e]

/-- peek on a non-empty buffer returns the oldest byte. -/
theorem RingBuffer.peek_ne (b : RingBuffer) (h : ¬ b.head = b.tail) :
    b.peek = some (b.data b.tail) := by
  simp [RingBuffer.peek, h]

/-- A buffer whose abstraction is non-empty is not index-coincident. -/
theorem RingBuffer.ne_of_toList_cons (b : RingBuffer) (h : b.Inv) (c : Nat)
    (l : List Nat) (htl : b.toList = c :: l) : ¬ b.head = b.tail := by
  intro he
  rw [(b.toList_nil_iff h).mpr he] at htl
  cases htl

/-- Draining with enough fuel returns exactly the abstraction. -/
theorem RingBuffer.drainAux_toList (n : Nat) : ∀ b : RingBuffer, b.Inv →
    b.available ≤ n → RingBuffer.drainAux n b = b.toList := by
  induction n with
  | zero =>
    intro b h hle
    have h0 : b.available = 0 := by omega
    have hl : b.toList = [] := by
      have := b.toList_length
      rw [h0] at this
      exact List.length_eq_zero.mp this
    rw [hl]
    rfl
  | succ n ih =>
    intro b h hle
    by_cases hne : b.head = b.tail
    · have hl : b.toList = [] := (b.toList_nil_iff h).mpr hne
      rw [hl]
      unfold RingBuffer.drainAux
      rw [b.read_empty hne]
    · have hnz : b.available ≠ 0 := fun h0 => hne ((b.avail_zero_iff h).mp h0)
      have hbi : ({ b with tail := (b.tail + 1) % b.cap } : RingBuffer).Inv := by
        have hx := b.read_inv h
        rwa [b.read_ne hne] at hx
      have hav : ({ b with tail := (b.tail + 1) % b.cap } : RingBuffer).available ≤ n := by
        have hx := b.avail_read h hne
        rw [b.read_ne hne] at hx
        rw [hx]
        omega
      unfold RingBuffer.drainAux
      rw [b.toList_cons h hne, b.read_ne hne]
      dsimp only
      rw [ih _ hbi hav]

/-- drain returns exactly the abstraction. -/
theorem RingBuffer.drain_toList (b : RingBuffer) (h : b.Inv) : b.drain = b.toList :=
  RingBuffer.drainAux_toList b.available b h (Nat.le_refl _)

/-- Storing a list that fits below capacity appends it to the abstraction,
preserving well-formedness and capacity. -/
theorem RingBuffer.storeList_toList : ∀ (l : List Nat) (b : RingBuffer), b.Inv →
    b.available + l.length ≤ b.cap - 1 →
    (b.storeList l).toList = b.toList ++ l ∧ (b.storeList l).Inv
      ∧ (b.storeList l).cap = b.cap := by
  intro l
  induction l with
  | nil =>
    intro b h _
    exact ⟨by simp [RingBuffer.storeList], h, rfl⟩
  | cons c l ih =>
    intro b h hle
    simp only [List.length_cons] at hle
    have hK := h.1
    have hnf : b.isFull = false := by
      cases hvf : b.isFull
      · rfl
      · exfalso
        have := (b.isFull_iff h).mp hvf
        have := b.avail_lt hK
        omega
    have h1 : (b.store c).Inv := b.store_inv c h
    have h2 : (b.store c).available = b.available + 1 := b.avail_store c h hnf
    have h3 : (b.store c).cap = b.cap := b.store_cap c
    have e : b.storeList (c :: l) = (b.store c).storeList l := rfl
    rw [e]
    obtain ⟨ihl, ihinv, ihcap⟩ := ih (b.store c) h1 (by rw [h2, h3]; omega)
    refine ⟨?_, ihinv, by rw [ihcap, h3]⟩
    rw [ihl, b.toList_store c h hnf]
    simp

/-- A fresh buffer of positive capacity is well-formed. -/
theorem RingBuffer.mk0_inv (K : Nat) (hK : 0 < K) : (RingBuffer.mk0 K).Inv :=
  ⟨hK, hK, hK⟩

/-- A fresh buffer reports no queued bytes. -/
theorem RingBuffer.mk0_available (K : Nat) : (RingBuffer.mk0 K).available = 0 := by
  simp [RingBuffer.mk0, RingBuffer.available]

/-- A fresh buffer has an empty abstraction. -/
theorem RingBuffer.mk0_toList (K : Nat) : (RingBuffer.mk0 K).toList = [] := by
  unfold RingBuffer.toList
  rw [RingBuffer.mk0_available]
  rfl

/-- Every buffer operation preserves the capacity. -/
theorem RingBuffer.applyOp_cap (b : RingBuffer) (op : BufOp) :
    (b.applyOp op).cap = b.cap := by
  cases op with
  | store c => exact b.store_cap c
  | read =>
    show ((b.read).2).cap = b.cap
    unfold RingBuffer.read
    split <;> rfl
  | peek => rfl

/-- Every sequence of buffer operations preserves the capacity. -/
theorem RingBuffer.applyOps_cap (ops : List BufOp) : ∀ b : RingBuffer,
    (b.applyOps ops).cap = b.cap := by
  induction ops with
  | nil => intro b; rfl
  | cons op ops ih =>
    intro b
    have e : b.applyOps (op :: ops) = (b.applyOp op).applyOps ops := rfl
    rw [e, ih, b.applyOp_cap]

/-- During the boot-guard window on the bootloader-sharing port, write
discards the byte, changes nothing and returns 0. -/
theorem USART.write_guard (u : USART) (c now : Nat) (hb : u.isBootPort = true)
    (ht : now < u.beginMillis + 1000) : u.write c now = (0, u) := by
  simp [USART.write, hb, ht]

/-- Outside the guard window with TX room, write enables the transmit
interrupt, enqueues the byte and returns 1. -/
theorem USART.write_nonguard (u : USART) (c now : Nat)
    (hg : u.isBootPort = false ∨ u.beginMillis + 1000 ≤ now)
    (hnf : u.txBuf.isFull = false) :
    u.write c now = (1, { u with txIE := true, txBuf := u.txBuf.store c }) := by
  have hg2 : ¬ (u.isBootPort = true ∧ now < u.beginMillis + 1000) := by
    rcases hg with hb | ht
    · intro hcon
      rw [hb] at hcon
      exact Bool.false_ne_true hcon.1
    · intro hcon
      exact absurd hcon.2 (by omega)
  simp [USART.write, hg2, hnf]

/-- A run of writes outside the guard window that fits in the TX buffer
enables the transmit interrupt (when the run is non-empty) and enqueues all
the bytes in order. -/
theorem USART.writeList_eq : ∀ (l : List Nat) (u : USART) (now : Nat),
    (u.isBootPort = false ∨ u.beginMillis + 1000 ≤ now) →
    u.txBuf.Inv → u.txBuf.available + l.length ≤ u.txBuf.cap - 1 →
    u.writeList l now
      = { u with txIE := (u.txIE || !l.isEmpty), txBuf := u.txBuf.storeList l } := by
  intro l
  induction l with
  | nil =>
    intro u now _ _ _
    show u = _
    simp [RingBuffer.storeList]
  | cons c l ih =>
    intro u now hg hInv hle
    simp only [List.length_cons] at hle
    have hK := hInv.1
    have hnf : u.txBuf.isFull = false := by
      cases hvf : u.txBuf.isFull
      · rfl
      · exfalso
        have := (u.txBuf.isFull_iff hInv).mp hvf
        have := u.txBuf.avail_lt hK
        omega
    have hw := u.write_nonguard c now hg hnf
    have e : u.writeList (c :: l) now = ((u.write c now).2).writeList l now := rfl
    rw [e, hw]
    have hb1 : ({ u with txIE := true, txBuf := u.txBuf.store c } : USART).txBuf.Inv :=
      u.txBuf.store_inv c hInv
    have hb2 : ({ u with txIE := true, txBuf := u.txBuf.store c } : USART).txBuf.available
        + l.length ≤ ({ u with txIE := true, txBuf := u.txBuf.store c } : USART).txBuf.cap - 1 := by
      show (u.txBuf.store c).available + l.length ≤ (u.txBuf.store c).cap - 1
      rw [u.txBuf.avail_store c hInv hnf, u.txBuf.store_cap c]
      omega
    rw [ih _ now (by exact hg) hb1 hb2]
    have e2 : u.txBuf.storeList (c :: l) = (u.txBuf.store c).storeList l := rfl
    rw [e2]
    simp

/-- Record form of one TX-register-empty dispatch when the transmit
interrupt is enabled and the TX buffer is non-empty: the oldest byte moves
to the transmit log, and the interrupt is disabled exactly when the buffer
is left empty. -/
theorem USART.txIsr_eq (u : USART) (hIE : u.txIE = true)
    (hne : ¬ u.txBuf.head = u.txBuf.tail) :
    u.txIsr
      = (if ((u.txBuf.read).2).isEmpty = true
         then { u with txBuf := (u.txBuf.read).2,
                       txLog := u.txLog ++ [u.txBuf.data u.txBuf.tail], txIE := false }
         else { u with txBuf := (u.txBuf.read).2,
                       txLog := u.txLog ++ [u.txBuf.data u.txBuf.tail] }) := by
  have hread := u.txBuf.read_ne hne
  unfold USART.txIsr
  rw [hIE, hread]
  simp

/-- Pumping the TX-empty interrupt once per queued byte transmits the queued
bytes in order, appending them to the transmit log. -/
theorem USART.pump_drain : ∀ (l : List Nat) (u : USART),
    u.txBuf.Inv → u.txIE = true → u.txBuf.toList = l →
    (USART.pump l.length u).txLog = u.txLog ++ l := by
  intro l
  induction l with
  | nil =>
    intro u _ _ _
    simp [USART.pump]
  | cons c l ih =>
    intro u hInv hIE htl
    have hne : ¬ u.txBuf.head = u.txBuf.tail := u.txBuf.ne_of_toList_cons hInv c l htl
    have hc := u.txBuf.toList_cons hInv hne
    rw [htl] at hc
    injection hc with hc1 hc2
    have hb2inv : ((u.txBuf.read).2).Inv := u.txBuf.read_inv hInv
    have hb2tl : ((u.txBuf.read).2).toList = l := hc2.symm
    have hstep := u.txIsr_eq hIE hne
    have e : USART.pump (c :: l).length u = USART.pump l.length u.txIsr := rfl
    rw [e, hstep]
    cases l with
    | nil =>
      have hemp : ((u.txBuf.read).2).isEmpty = true := by
        rw [RingBuffer.isEmpty_true_iff]
        exact (RingBuffer.toList_nil_iff _ hb2inv).mp hb2tl
      rw [if_pos hemp]
      show u.txLog ++ [u.txBuf.data u.txBuf.tail] = u.txLog ++ [c]
      rw [hc1]
    | cons c2 l2 =>
      have hemp : ¬ ((u.txBuf.read).2).isEmpty = true := by
        rw [RingBuffer.isEmpty_true_iff]
        intro hx
        have hz := (RingBuffer.toList_nil_iff _ hb2inv).mpr hx
        rw [hb2tl] at hz
        cases hz
      rw [if_neg hemp]
      have hv := ih { u with txBuf := (u.txBuf.read).2,
                             txLog := u.txLog ++ [u.txBuf.data u.txBuf.tail] }
        (by exact hb2inv) (by exact hIE) (by exact hb2tl)
      rw [hv, hc1]
      simp

/-- In buffered mode an RX interrupt stores the byte into the RX buffer. -/
theorem USART.rxIsr_buffered (u : USART) (c : Nat) (h : u.callback = false) :
    u.rxIsr c = { u with rxBuf := u.rxBuf.store c } := by
  simp [USART.rxIsr, h]

/-- In callback mode an RX interrupt hands the byte to the callback and
leaves the RX buffer untouched. -/
theorem USART.rxIsr_callback (u : USART) (c : Nat) (h : u.callback = true) :
    u.rxIsr c = { u with cbLog := u.cbLog ++ [c] } := by
  simp [USART.rxIsr, h]

/-- In buffered mode a run of RX interrupts stores all the bytes, in order,
into the RX buffer and touches nothing else. -/
theorem USART.rxIsrList_eq : ∀ (l : List Nat) (u : USART), u.callback = false →
    u.rxIsrList l = { u with rxBuf := u.rxBuf.storeList l } := by
  intro l
  induction l with
  | nil =>
    intro u _
    show u = _
    simp [RingBuffer.storeList]
  | cons c l ih =>
    intro u h
    have e : u.rxIsrList (c :: l) = (u.rxIsr c).rxIsrList l := rfl
    rw [e, u.rxIsr_buffered c h, ih _ (by exact h)]
    rfl

/-- Reading as many times as the RX buffer holds returns exactly the queued
bytes, in order, as nonnegative integers. -/
theorem USART.readN_toList : ∀ (l : List Nat) (u : USART), u.rxBuf.Inv →
    u.rxBuf.toList = l → USART.readN l.length u = l.map Int.ofNat := by
  intro l
  induction l with
  | nil =>
    intro u _ _
    rfl
  | cons c l ih =>
    intro u hInv htl
    have hne : ¬ u.rxBuf.head = u.rxBuf.tail := u.rxBuf.ne_of_toList_cons hInv c l htl
    have hc := u.rxBuf.toList_cons hInv hne
    rw [htl] at hc
    injection hc with hc1 hc2
    have hread := u.rxBuf.read_ne hne
    have hb2inv : ((u.rxBuf.read).2).Inv := u.rxBuf.read_inv hInv
    have hb2tl : ((u.rxBuf.read).2).toList = l := hc2.symm
    have hur : u.read
        = (Int.ofNat (u.rxBuf.data u.rxBuf.tail), { u with rxBuf := (u.rxBuf.read).2 }) := by
      unfold USART.read
      rw [hread]
    have e : USART.readN (c :: l).length u
        = (u.read).1 :: USART.readN l.length (u.read).2 := rfl
    rw [e, hur]
    have hv := ih { u with rxBuf := (u.rxBuf.read).2 } (by exact hb2inv) (by exact hb2tl)
    show Int.ofNat (u.rxBuf.data u.rxBuf.tail)
        :: USART.readN l.length { u with rxBuf := (u.rxBuf.read).2 }
        = Int.ofNat c :: l.map Int.ofNat
    rw [hv, hc1]

/-- C2: for every sequence of store calls of length at most capacity minus
one with no intervening reads, read returns exactly those bytes in FIFO
order; end to end, bytes delivered by RX interrupts reach read() in arrival
order, and bytes passed to write() are moved to the transmit register in
enqueue order. -/
theorem C2_fifo_order :
    (∀ (K : Nat) (l : List Nat), 0 < K → l.length ≤ K - 1 →
      ((RingBuffer.mk0 K).storeList l).drain = l)
    ∧ (∀ (u : USART) (l : List Nat), u.callback = false → u.rxBuf.Inv →
        u.rxBuf.head = u.rxBuf.tail → l.length ≤ u.rxBuf.cap - 1 →
        USART.readN l.length (u.rxIsrList l) = l.map Int.ofNat)
    ∧ (∀ (u : USART) (l : List Nat) (now : Nat),
        (u.isBootPort = false ∨ u.beginMillis + 1000 ≤ now) →
        u.txBuf.Inv → u.txBuf.head = u.txBuf.tail → l.length ≤ u.txBuf.cap - 1 →
        (USART.pump l.length (u.writeList l now)).txLog = u.txLog ++ l) := by
  refine ⟨?_, ?_, ?_⟩
  · intro K l hK hlen
    have hinv := RingBuffer.mk0_inv K hK
    obtain ⟨htl, hinv2, _⟩ := RingBuffer.storeList_toList l (RingBuffer.mk0 K) hinv
      (by rw [RingBuffer.mk0_available]; show 0 + l.length ≤ K - 1; omega)
    rw [RingBuffer.mk0_toList] at htl
    simp only [List.nil_append] at htl
    rw [RingBuffer.drain_toList _ hinv2, htl]
  · intro u l hcb hinv hempty hlen
    have havail0 : u.rxBuf.available = 0 := (u.rxBuf.avail_zero_iff hinv).mpr hempty
    have htl0 : u.rxBuf.toList = [] := (u.rxBuf.toList_nil_iff hinv).mpr hempty
    rw [USART.rxIsrList_eq l u hcb]
    obtain ⟨htl, hinv2, _⟩ := RingBuffer.storeList_toList l u.rxBuf hinv (by omega)
    rw [htl0] at htl
    simp only [List.nil_append] at htl
    exact USART.readN_toList l { u with rxBuf := u.rxBuf.storeList l }
      (by exact hinv2) (by exact htl)
  · intro u l now hg hinv hempty hlen
    have havail0 : u.txBuf.available = 0 := (u.txBuf.avail_zero_iff hinv).mpr hempty
    have htl0 : u.txBuf.toList = [] := (u.txBuf.toList_nil_iff hinv).mpr hempty
    rw [USART.writeList_eq l u now hg hinv (by omega)]
    cases l with
    | nil =>
      simp [USART.pump]
    | cons c l2 =>
      obtain ⟨htl, hinv2, _⟩ := RingBuffer.storeList_toList (c :: l2) u.txBuf hinv (by omega)
      rw [htl0] at htl
      simp only [List.nil_append] at htl
      have hv := USART.pump_drain (c :: l2)
        { u with txIE := u.txIE || !(c :: l2).isEmpty, txBuf := u.txBuf.storeList (c :: l2) }
        (by exact hinv2) (by simp) (by exact htl)
      rw [hv]

/-- C2 witness: the FIFO property evaluated on a capacity-4 buffer with
three stored bytes, and on a fresh controller over both the RX and TX
paths. -/
theorem C2_fifo_order_witness :
    ((RingBuffer.mk0 4).storeList [10, 20, 30]).drain = [10, 20, 30]
    ∧ USART.readN 2 ((USART.mk0 false).rxIsrList [7, 8]) = [7, 8].map Int.ofNat
    ∧ (USART.pump 2 ((USART.mk0 false).writeList [5, 6] 0)).txLog
        = ([] : List Nat) ++ [5, 6] :=
  ⟨C2_fifo_order.1 4 [10, 20, 30] (by decide) (by decide),
   C2_fifo_order.2.1 (USART.mk0 false) [7, 8] rfl ⟨by decide, by decide, by decide⟩
     rfl (by decide),
   C2_fifo_order.2.2 (USART.mk0 false) [5, 6] 0 (Or.inl rfl)
     ⟨by decide, by decide, by decide⟩ rfl (by decide)⟩

/-- C3: after capacity-minus-one stores from fresh with no intervening read,
isFull is true and one further store drops the new byte, leaving the queued
bytes unchanged: the drained sequence is the same with or without the
dropped store, and it is exactly the stored list.  store reports nothing to
its caller (its return type carries only the buffer). -/
theorem C3_capacity_drop : ∀ (K : Nat) (l : List Nat) (c : Nat), 0 < K →
    l.length = K - 1 →
    ((RingBuffer.mk0 K).storeList l).isFull = true
    ∧ ((RingBuffer.mk0 K).storeList l).store c = (RingBuffer.mk0 K).storeList l
    ∧ (((RingBuffer.mk0 K).storeList l).store c).drain
        = ((RingBuffer.mk0 K).storeList l).drain
    ∧ ((RingBuffer.mk0 K).storeList l).drain = l := by
  intro K l c hK hlen
  have hinv := RingBuffer.mk0_inv K hK
  obtain ⟨htl, hinv2, hcap⟩ := RingBuffer.storeList_toList l (RingBuffer.mk0 K) hinv
    (by rw [RingBuffer.mk0_available]; show 0 + l.length ≤ K - 1; omega)
  rw [RingBuffer.mk0_toList] at htl
  simp only [List.nil_append] at htl
  have hlen2 : ((RingBuffer.mk0 K).storeList l).available = K - 1 := by
    rw [← RingBuffer.toList_length, htl, hlen]
  have hfull : ((RingBuffer.mk0 K).storeList l).isFull = true := by
    rw [RingBuffer.isFull_iff _ hinv2, hlen2, hcap]
    rfl
  have hdrop := RingBuffer.store_full _ c hfull
  refine ⟨hfull, hdrop, by rw [hdrop], ?_⟩
  rw [RingBuffer.drain_toList _ hinv2, htl]

/-- C3 witness: a capacity-4 buffer filled with three bytes is full, and a
fourth store is dropped without disturbing the queue. -/
theorem C3_capacity_drop_witness :
    ((RingBuffer.mk0 4).storeList [1, 2, 3]).isFull = true
    ∧ ((RingBuffer.mk0 4).storeList [1, 2, 3]).store 9 = (RingBuffer.mk0 4).storeList [1, 2, 3]
    ∧ (((RingBuffer.mk0 4).storeList [1, 2, 3]).store 9).drain
        = ((RingBuffer.mk0 4).storeList [1, 2, 3]).drain
    ∧ ((RingBuffer.mk0 4).storeList [1, 2, 3]).drain = [1, 2, 3] :=
  C3_capacity_drop 4 [1, 2, 3] 9 (by decide) (by decide)

/-- C4: a fresh buffer reports available() zero; a well-formed buffer is
empty exactly when the write index equals the read index; and no sequence of
store, read or peek operations pushes available() beyond capacity minus
one. -/
theorem C4_empty_full_invariants :
    (∀ K : Nat, (RingBuffer.mk0 K).available = 0)
    ∧ (∀ b : RingBuffer, b.Inv → (b.available = 0 ↔ b.head = b.tail))
    ∧ (∀ (K : Nat) (ops : List BufOp), 0 < K →
        ((RingBuffer.mk0 K).applyOps ops).available ≤ K - 1) := by
  refine ⟨RingBuffer.mk0_available, fun b h => b.avail_zero_iff h, ?_⟩
  intro K ops hK
  have hcap := RingBuffer.applyOps_cap ops (RingBuffer.mk0 K)
  have hKc : (RingBuffer.mk0 K).cap = K := rfl
  have hlt := RingBuffer.avail_lt ((RingBuffer.mk0 K).applyOps ops)
    (by rw [hcap, hKc]; exact hK)
  rw [hcap, hKc] at hlt
  omega

/-- C4 witness: the invariants evaluated on a capacity-4 buffer and a
concrete operation sequence. -/
theorem C4_empty_full_invariants_witness :
    (RingBuffer.mk0 4).available = 0
    ∧ ((RingBuffer.mk0 4).available = 0 ↔ (RingBuffer.mk0 4).head = (RingBuffer.mk0 4).tail)
    ∧ ((RingBuffer.mk0 4).applyOps
        [BufOp.store 1, BufOp.store 2, BufOp.peek, BufOp.read, BufOp.store 3]).available ≤ 3 :=
  ⟨C4_empty_full_invariants.1 4,
   C4_empty_full_invariants.2.1 (RingBuffer.mk0 4) ⟨by decide, by decide, by decide⟩,
   C4_empty_full_invariants.2.2 4
     [BufOp.store 1, BufOp.store 2, BufOp.peek, BufOp.read, BufOp.store 3] (by decide)⟩

/-- C5: with the RX buffer empty, read() and peek() both return -1 (and
read changes nothing); with it non-empty, peek() returns the oldest queued
byte (peek takes the controller by value and returns only the integer, so
it cannot change available()), and read() returns that same oldest byte,
decreases available() by one and leaves the remaining bytes queued. -/
theorem C5_read_peek_contract : ∀ u : USART, u.rxBuf.Inv →
    ((u.rxBuf.head = u.rxBuf.tail →
        u.peek = -1 ∧ (u.read).1 = -1 ∧ (u.read).2 = u)
    ∧ (∀ c l, u.rxBuf.toList = c :: l →
        u.peek = Int.ofNat c ∧ (u.read).1 = Int.ofNat c
        ∧ ((u.read).2).available = u.available - 1
        ∧ ((u.read).2).rxBuf.toList = l)) := by
  intro u hinv
  constructor
  · intro he
    have hp : u.rxBuf.peek = none := by simp [RingBuffer.peek, he]
    have hr := u.rxBuf.read_empty he
    refine ⟨?_, ?_, ?_⟩
    · simp [USART.peek, hp]
    · simp [USART.read, hr]
    · simp [USART.read, hr]
  · intro c l htl
    have hne : ¬ u.rxBuf.head = u.rxBuf.tail := u.rxBuf.ne_of_toList_cons hinv c l htl
    have hc := u.rxBuf.toList_cons hinv hne
    rw [htl] at hc
    injection hc with hc1 hc2
    have hread := u.rxBuf.read_ne hne
    have hpeek := u.rxBuf.peek_ne hne
    have hnz : u.rxBuf.available ≠ 0 := fun h0 => hne ((u.rxBuf.avail_zero_iff hinv).mp h0)
    have hav2 := u.rxBuf.avail_read hinv hne
    rw [hread] at hav2
    refine ⟨?_, ?_, ?_, ?_⟩
    · simp only [USART.peek, hpeek]
      rw [hc1]
    · simp only [USART.read, hread]
      rw [hc1]
    · simp only [USART.read, USART.available, hread]
      rw [hav2]
      simp only [Int.ofNat_eq_natCast]
      omega
    · have hb2tl : ((u.rxBuf.read).2).toList = l := hc2.symm
      rw [hread] at hb2tl
      simp only [USART.read, hread]
      exact hb2tl

/-- C5 witness: the contract evaluated on a fresh controller (empty RX
buffer) and on a controller with the single byte 9 queued. -/
theorem C5_read_peek_contract_witness :
    ((USART.mk0 false).peek = -1 ∧ ((USART.mk0 false).read).1 = -1
      ∧ ((USART.mk0 false).read).2 = USART.mk0 false)
    ∧ (uOne.peek = Int.ofNat 9 ∧ (uOne.read).1 = Int.ofNat 9
      ∧ ((uOne.read).2).available = uOne.available - 1
      ∧ ((uOne.read).2).rxBuf.toList = []) :=
  ⟨(C5_read_peek_contract (USART.mk0 false) ⟨by decide, by decide, by decide⟩).1 rfl,
   (C5_read_peek_contract uOne ⟨by decide, by decide, by decide⟩).2 9 [] (by decide)⟩

/-- C1: on the bootloader-sharing port, every write during the first second
after begin() discards the byte and returns 0 leaving the state unchanged,
and a write of the same byte after the guard interval has elapsed (the TX
buffer has room, having been cleared by begin) returns 1. -/
theorem C1_boot_guard : ∀ (u : USART) (baud mode t0 c now1 now2 : Nat),
    u.isBootPort = true → now1 < t0 + 1000 → t0 + 1000 ≤ now2 →
    (u.begin baud mode t0).write c now1 = (0, u.begin baud mode t0)
    ∧ (((u.begin baud mode t0).write c now1).2.write c now2).1 = 1 := by
  intro u baud mode t0 c now1 now2 hb h1 h2
  have hbb : (u.begin baud mode t0).isBootPort = true := hb
  have hbm : (u.begin baud mode t0).beginMillis = t0 := rfl
  have e1 := USART.write_guard (u.begin baud mode t0) c now1 hbb (by rw [hbm]; exact h1)
  refine ⟨e1, ?_⟩
  rw [e1]
  have hnf : (u.begin baud mode t0).txBuf.isFull = false := by
    show (RingBuffer.mk0 SERIAL_BUFFER_SIZE).isFull = false
    decide
  have e2 := USART.write_nonguard (u.begin baud mode t0) c now2
    (Or.inr (by rw [hbm]; exact h2)) hnf
  rw [e2]

/-- C1 witness: begin(9600, 8N1) at time 0 on the bootloader-sharing
controller, write of byte 65 at time 0 returns 0 and changes nothing, and
the same write at time 1000 returns 1. -/
theorem C1_boot_guard_witness :
    ((USART.mk0 true).begin 9600 SERIAL_8N1 0).write 65 0
        = (0, (USART.mk0 true).begin 9600 SERIAL_8N1 0)
    ∧ ((((USART.mk0 true).begin 9600 SERIAL_8N1 0).write 65 0).2.write 65 1000).1 = 1 :=
  C1_boot_guard (USART.mk0 true) 9600 SERIAL_8N1 0 65 0 1000 rfl (by decide) (by decide)

/-- C6: the ten supported mode symbols carry exactly the byte values of the
table, those values bit-decode to the stated word length, parity code
(0 none, 2 even, 3 odd) and stop-bit count, and begin(baud, mode) records
exactly that decoded frame configuration in the init structure. -/
theorem C6_mode_table :
    (SERIAL_8N1 = 0x06 ∧ SERIAL_8N2 = 0x0E ∧ SERIAL_7E1 = 0x24 ∧ SERIAL_8E1 = 0x26
      ∧ SERIAL_7E2 = 0x2C ∧ SERIAL_8E2 = 0x2E ∧ SERIAL_7O1 = 0x34 ∧ SERIAL_8O1 = 0x36
      ∧ SERIAL_7O2 = 0x3C ∧ SERIAL_8O2 = 0x3E)
    ∧ ((modeWordLength SERIAL_8N1 = 8 ∧ modeParity SERIAL_8N1 = 0 ∧ modeStopBits SERIAL_8N1 = 1)
      ∧ (modeWordLength SERIAL_8N2 = 8 ∧ modeParity SERIAL_8N2 = 0 ∧ modeStopBits SERIAL_8N2 = 2)
      ∧ (modeWordLength SERIAL_7E1 = 7 ∧ modeParity SERIAL_7E1 = 2 ∧ modeStopBits SERIAL_7E1 = 1)
      ∧ (modeWordLength SERIAL_8E1 = 8 ∧ modeParity SERIAL_8E1 = 2 ∧ modeStopBits SERIAL_8E1 = 1)
      ∧ (modeWordLength SERIAL_7E2 = 7 ∧ modeParity SERIAL_7E2 = 2 ∧ modeStopBits SERIAL_7E2 = 2)
      ∧ (modeWordLength SERIAL_8E2 = 8 ∧ modeParity SERIAL_8E2 = 2 ∧ modeStopBits SERIAL_8E2 = 2)
      ∧ (modeWordLength SERIAL_7O1 = 7 ∧ modeParity SERIAL_7O1 = 3 ∧ modeStopBits SERIAL_7O1 = 1)
      ∧ (modeWordLength SERIAL_8O1 = 8 ∧ modeParity SERIAL_8O1 = 3 ∧ modeStopBits SERIAL_8O1 = 1)
      ∧ (modeWordLength SERIAL_7O2 = 7 ∧ modeParity SERIAL_7O2 = 3 ∧ modeStopBits SERIAL_7O2 = 2)
      ∧ (modeWordLength SERIAL_8O2 = 8 ∧ modeParity SERIAL_8O2 = 3 ∧ modeStopBits SERIAL_8O2 = 2))
    ∧ (∀ (s : SerialSystem) (i : Inst) (baud mode now : Nat),
        (s.applyOp i (SysOp.beginOp baud mode now)).initStructure
          = ⟨baud, modeWordLength mode, modeParity mode, modeStopBits mode⟩) := by
  refine ⟨by decide, by decide, ?_⟩
  intro s i baud mode now
  rfl

/-- C7 counterexample: on a controller in buffered mode whose RX buffer is
full (capacity 2 holding one byte), an RX interrupt drops the received byte
and available() does not increase, so a received byte does not always
increment available() after detachInterrupt(). -/
theorem C7_counterexample :
    ¬ (((uFull.detachInterrupt).rxIsr 5).available
        = (uFull.detachInterrupt).available + 1) := by
  decide

/-- C7 (amended): RX callback mode and RX buffered mode are mutually
exclusive: after attachInterrupt, every received byte goes to the callback
and the RX buffer is untouched, so available() stays at 0; after the
idempotent detachInterrupt, every received byte is handed to the RX buffer
store, which increments available() whenever the buffer is not full (the
byte is silently dropped when it is full), and the callback is never
invoked. -/
theorem C7_callback_exclusive : ∀ (u : USART) (c : Nat),
    ((u.attachInterrupt.rxIsr c).cbLog = u.cbLog ++ [c]
      ∧ (u.attachInterrupt.rxIsr c).rxBuf = u.rxBuf)
    ∧ ((u.detachInterrupt.rxIsr c).cbLog = u.cbLog
      ∧ (u.detachInterrupt.rxIsr c).rxBuf = u.rxBuf.store c
      ∧ (u.rxBuf.Inv → u.rxBuf.isFull = false →
          (u.detachInterrupt.rxIsr c).available = u.available + 1))
    ∧ u.detachInterrupt.detachInterrupt = u.detachInterrupt := by
  intro u c
  refine ⟨⟨?_, ?_⟩, ⟨?_, ?_, ?_⟩, ?_⟩
  · rfl
  · rfl
  · rfl
  · rfl
  · intro hinv hnf
    show Int.ofNat ((u.rxBuf.store c).available) = Int.ofNat u.rxBuf.available + 1
    rw [u.rxBuf.avail_store c hinv hnf]
    simp [Int.ofNat_eq_natCast]
  · rfl

/-- C7 witness: on a fresh controller (RX buffer empty, capacity 64) in
buffered mode, one RX interrupt increments available() from 0 to 1. -/
theorem C7_callback_exclusive_witness :
    ((USART.mk0 false).detachInterrupt.rxIsr 7).available
      = (USART.mk0 false).available + 1 :=
  ((C7_callback_exclusive (USART.mk0 false) 7).2.1.2.2)
    ⟨by decide, by decide, by decide⟩ (by decide)

/-- C8: in every reachable state, write outside the guard window enables
the transmit-interrupt line; while enabled, a TX-register-empty dispatch
disables it exactly when it has just emptied (or found empty) the TX
buffer, always leaving the RX interrupt enable unchanged; every event other
than write and the TX dispatch preserves the line; and once disabled it
stays disabled under every event except write. -/
theorem C8_tx_interrupt_lifecycle : ∀ u0 u : USART, USART.Reachable u0 u →
    ((∀ c now, (u.isBootPort = false ∨ u.beginMillis + 1000 ≤ now) →
        ((u.write c now).2).txIE = true)
    ∧ (u.txIE = true →
        ((u.txIsr.txIE = false ↔ u.txIsr.txBuf.isEmpty = true)
          ∧ u.txIsr.rxIE = u.rxIE))
    ∧ (∀ e : UEvent, (∀ c now, e ≠ UEvent.write c now) → e ≠ UEvent.txEmpty →
        (u.step e).txIE = u.txIE)
    ∧ (u.txIE = false → ∀ e : UEvent, (∀ c now, e ≠ UEvent.write c now) →
        (u.step e).txIE = false)) := by
  intro u0 u _
  refine ⟨?_, ?_, ?_, ?_⟩
  · intro c now hg
    have hg2 : ¬ (u.isBootPort = true ∧ now < u.beginMillis + 1000) := by
      rcases hg with hbf | hfm
      · intro hcon
        rw [hbf] at hcon
        exact Bool.false_ne_true hcon.1
      · intro hcon
        exact absurd hcon.2 (by omega)
    unfold USART.write
    rw [if_neg hg2]
    split <;> rfl
  · intro hIE
    by_cases hhe : u.txBuf.head = u.txBuf.tail
    · have hr := u.txBuf.read_empty hhe
      have hemp : u.txBuf.isEmpty = true := (RingBuffer.isEmpty_true_iff _).mpr hhe
      have hthis : u.txIsr = { u with txIE := false } := by
        unfold USART.txIsr
        rw [hIE, hr]
        simp [hemp]
      rw [hthis]
      exact ⟨by simp [hemp], rfl⟩
    · have hstep := u.txIsr_eq hIE hhe
      rw [hstep]
      by_cases hemp2 : ((u.txBuf.read).2).isEmpty = true
      · rw [if_pos hemp2]
        exact ⟨by simp [hemp2], rfl⟩
      · rw [if_neg hemp2]
        exact ⟨by simp [hIE, hemp2], rfl⟩
  · intro e hw hne
    cases e with
    | write c now => exact absurd rfl (hw c now)
    | txEmpty => exact absurd rfl hne
    | rxReady c =>
      show (u.rxIsr c).txIE = u.txIE
      unfold USART.rxIsr
      split <;> rfl
    | readCall =>
      show ((u.read).2).txIE = u.txIE
      unfold USART.read
      rcases hre : u.rxBuf.read with ⟨o, b2⟩
      cases o <;> rfl
    | attach => rfl
    | detach => rfl
  · intro hIEf e hw
    cases e with
    | write c now => exact absurd rfl (hw c now)
    | txEmpty =>
      show u.txIsr.txIE = false
      unfold USART.txIsr
      rw [hIEf]
      rw [if_neg (by exact Bool.false_ne_true)]
      exact hIEf
    | rxReady c =>
      show (u.rxIsr c).txIE = false
      unfold USART.rxIsr
      split <;> exact hIEf
    | readCall =>
      show ((u.read).2).txIE = false
      unfold USART.read
      rcases hre : u.rxBuf.read with ⟨o, b2⟩
      cases o <;> exact hIEf
    | attach => exact hIEf
    | detach => exact hIEf

/-- C8 witness: from the reachable initial controller, a write enables the
transmit-interrupt line. -/
theorem C8_tx_interrupt_lifecycle_witness :
    (((USART.mk0 false).write 3 0).2).txIE = true :=
  ((C8_tx_interrupt_lifecycle (USART.mk0 false) (USART.mk0 false) ⟨[], rfl⟩).1)
    3 0 (Or.inl rfl)

/-- C9 counterexample: begin(9600, 8N1) on Serial1 overwrites the
configuration-init structure, which is a static class member shared with
Serial2 (USARTClass.h line 47), so Serial2 observes it changed: the claim
that every operation on one controller leaves the other controller's
configuration-init structure unchanged is false. -/
theorem C9_counterexample :
    ¬ ((sysEx.applyOp Inst.s1 (SysOp.beginOp 9600 SERIAL_8N1 0)).initStructure
        = sysEx.initStructure) := by
  decide

/-- C9 (amended): controller instances are independent in their
per-instance state: every operation addressed to one instance leaves the
other instances (their buffers and their current configuration) unchanged;
only the configuration-init structure, being a static class member shared
by all instances, is overwritten by begin() on any instance. -/
theorem C9_instance_isolation : ∀ (s : SerialSystem) (i j : Inst) (op : SysOp),
    i ≠ j → (s.applyOp i op).get j = s.get j := by
  intro s i j op hne
  cases op <;> cases i <;> cases j <;> first | exact absurd rfl hne | rfl

/-- C9 witness: begin on Serial1 leaves Serial2's per-instance state
unchanged (even though it rewrites the shared init structure). -/
theorem C9_instance_isolation_witness :
    (sysEx.applyOp Inst.s1 (SysOp.beginOp 9600 SERIAL_8N1 0)).get Inst.s2
      = sysEx.get Inst.s2 :=
  C9_instance_isolation sysEx Inst.s1 Inst.s2 (SysOp.beginOp 9600 SERIAL_8N1 0)
    (by decide)

/-- C10: the SPI data-mode symbols have the header values 0x02, 0x00, 0x03,
0x01 and none of them equals its raw mode number, so the symbol for mode n
never coincides with n itself. -/
theorem C10_spi_mode_symbols :
    (SPI_MODE0 = 0x02 ∧ SPI_MODE1 = 0x00 ∧ SPI_MODE2 = 0x03 ∧ SPI_MODE3 = 0x01)
    ∧ (SPI_MODE0 ≠ 0 ∧ SPI_MODE1 ≠ 1 ∧ SPI_MODE2 ≠ 2 ∧ SPI_MODE3 ≠ 3)
    ∧ (∀ n, n < 4 → spiModeSymbol n ≠ n) := by
  decide

/-- C10 witness: the symbol for raw mode number 2 differs from 2. -/
theorem C10_spi_mode_symbols_witness : spiModeSymbol 2 ≠ 2 :=
  C10_spi_mode_symbols.2.2 2 (by decide)
